import Mathlib

/-
Verification of the `git sync` orchestration layer of git-branchless.

Shallow embedding of:
  - git-branchless/src/commands/sync.rs
      (sync, execute_main_branch_sync_plan, execute_sync_plans, execute_plans,
       get_stack_roots)
  - src/git/run.rs
      (GitRunInfo::run, GitRunInfo::run_hook)

Commit OIDs and rebase plans are abstract tokens (naturals).  Effectful calls
made by the orchestrator (reference updates, plan construction and execution,
report lines written to the output stream) are recorded as an explicit trace of
actions, in the order the Rust code performs them.  Collaborator components
that live outside the excerpted sources (the eden_dag queries, the rebase plan
builder and executor, the revset parser) enter the model as environment fields
holding their results, or as definitions modelled from the spec where noted.
-/

/-- Commit object id (`NonZeroOid` in the source), as an abstract token. -/
abbrev Oid := Nat

/-- The `RebasePlan` type (lib::core::rewrite) is opaque to sync.rs: the orchestrator
only passes it from the builder to the executor.  Modelled as a token. -/
abbrev Plan := Nat

/-- Result of `execute_rebase_plan` (lib::core::rewrite).  The payloads
(`rewritten_oids`, `merge_conflict`) are ignored by sync.rs, so they are
omitted here; the `exit_code` of `Failed` is kept because it is propagated. -/
inductive ExecuteRebasePlanResult where
  | Succeeded
  | DeclinedToMerge
  | Failed (exit_code : Int)
deriving DecidableEq, Repr

/-- Whether an executor result is the transport-level `Failed` variant. -/
def ExecuteRebasePlanResult.isFailed : ExecuteRebasePlanResult → Bool
  | .Failed _ => true
  | _ => false

/-- One observable effect performed by the sync orchestrator, in program
order: subprocess fetch, reference update, builder construction,
`move_subtree` registration, `build` call, `execute_rebase_plan` call, and the
three kinds of report lines printed by `execute_plans`. -/
inductive SyncAction where
  | fetch
  | createReference (oid : Oid)
  | newBuilder
  | moveSubtree (root : Oid) (parents : List Oid)
  | buildPlan
  | executeRebasePlan (plan : Plan)
  | outSynced (oid : Oid)
  | outMergeConflict (oid : Oid)
  | outNotMoving (oid : Oid)
deriving DecidableEq, Repr

/-- The loop of `execute_plans` (sync.rs lines 392-422): three accumulator
vectors for the outcome buckets, an early return with the executor's exit code
on `Failed`, and, once the loop completes, one report line per bucket entry
(lines 427-460) followed by exit code 0 (line 462).  `exec` stands for
`execute_rebase_plan` applied to the fixed repo/options arguments. -/
def executePlansGo (exec : Plan → ExecuteRebasePlanResult) :
    List (Oid × Option Plan) → List Oid → List Oid → List Oid → List SyncAction →
    Int × List SyncAction
  | [], success_commits, merge_conflict_commits, skipped_commits, trace =>
      (0, trace ++ success_commits.map SyncAction.outSynced
            ++ merge_conflict_commits.map SyncAction.outMergeConflict
            ++ skipped_commits.map SyncAction.outNotMoving)
  | (root_commit, none) :: rest, success_commits, merge_conflict_commits,
      skipped_commits, trace =>
      executePlansGo exec rest success_commits merge_conflict_commits
        (skipped_commits ++ [root_commit]) trace
  | (root_commit, some rebase_plan) :: rest, success_commits,
      merge_conflict_commits, skipped_commits, trace =>
      match exec rebase_plan with
      | .Succeeded =>
          executePlansGo exec rest (success_commits ++ [root_commit])
            merge_conflict_commits skipped_commits
            (trace ++ [SyncAction.executeRebasePlan rebase_plan])
      | .DeclinedToMerge =>
          executePlansGo exec rest success_commits
            (merge_conflict_commits ++ [root_commit]) skipped_commits
            (trace ++ [SyncAction.executeRebasePlan rebase_plan])
      | .Failed exit_code => (exit_code, trace ++ [SyncAction.executeRebasePlan rebase_plan])

/-- Function `execute_plans` (sync.rs lines 376-463). -/
def execute_plans (exec : Plan → ExecuteRebasePlanResult)
    (root_commit_and_plans : List (Oid × Option Plan)) : Int × List SyncAction :=
  executePlansGo exec root_commit_and_plans [] [] [] []

/-- The roots the loop of `execute_plans` would put in the `success_commits`
bucket. -/
def succeededOf (exec : Plan → ExecuteRebasePlanResult) :
    List (Oid × Option Plan) → List Oid
  | [] => []
  | (o, some p) :: rest =>
      if exec p = .Succeeded then o :: succeededOf exec rest
      else succeededOf exec rest
  | (_, none) :: rest => succeededOf exec rest

/-- The roots the loop of `execute_plans` would put in the
`merge_conflict_commits` bucket. -/
def conflictedOf (exec : Plan → ExecuteRebasePlanResult) :
    List (Oid × Option Plan) → List Oid
  | [] => []
  | (o, some p) :: rest =>
      if exec p = .DeclinedToMerge then o :: conflictedOf exec rest
      else conflictedOf exec rest
  | (_, none) :: rest => conflictedOf exec rest

/-- The roots the loop of `execute_plans` would put in the `skipped_commits`
bucket: exactly the entries whose plan is absent. -/
def skippedOf : List (Oid × Option Plan) → List Oid
  | [] => []
  | (_, some _) :: rest => skippedOf rest
  | (o, none) :: rest => o :: skippedOf rest

/-- The `execute_rebase_plan` calls the loop performs, in order, when no entry
is reached after a `Failed` result: one per present plan. -/
def planTrace : List (Oid × Option Plan) → List SyncAction
  | [] => []
  | (_, some p) :: rest => SyncAction.executeRebasePlan p :: planTrace rest
  | (_, none) :: rest => planTrace rest

/-- The oids mentioned by the report lines of a trace, in print order. -/
def outputOids : List SyncAction → List Oid
  | [] => []
  | .outSynced o :: rest => o :: outputOids rest
  | .outMergeConflict o :: rest => o :: outputOids rest
  | .outNotMoving o :: rest => o :: outputOids rest
  | .fetch :: rest => outputOids rest
  | .createReference _ :: rest => outputOids rest
  | .newBuilder :: rest => outputOids rest
  | .moveSubtree _ _ :: rest => outputOids rest
  | .buildPlan :: rest => outputOids rest
  | .executeRebasePlan _ :: rest => outputOids rest

/-- An optional plan whose execution does not produce the `Failed` variant. -/
def planNotFailed (exec : Plan → ExecuteRebasePlanResult) : Option Plan → Bool
  | some p => !(exec p).isFailed
  | none => true

/-- No entry of the list carries a plan whose execution is a transport-level
`Failed`. -/
abbrev noFailed (exec : Plan → ExecuteRebasePlanResult)
    (xs : List (Oid × Option Plan)) : Prop :=
  ∀ e ∈ xs, planNotFailed exec e.2 = true

theorem executePlansGo_noFailed (exec : Plan → ExecuteRebasePlanResult)
    (xs : List (Oid × Option Plan)) (s m k : List Oid) (tr : List SyncAction)
    (h : noFailed exec xs) :
    executePlansGo exec xs s m k tr =
      (0, tr ++ planTrace xs
            ++ (s ++ succeededOf exec xs).map SyncAction.outSynced
            ++ (m ++ conflictedOf exec xs).map SyncAction.outMergeConflict
            ++ (k ++ skippedOf xs).map SyncAction.outNotMoving) := by
  induction xs generalizing s m k tr with
  | nil => simp [executePlansGo, planTrace, succeededOf, conflictedOf, skippedOf]
  | cons e rest ih =>
      obtain ⟨o, op⟩ := e
      have hrest : noFailed exec rest := fun e' he' => h e' (List.mem_cons_of_mem _ he')
      match op with
      | none =>
          rw [executePlansGo, ih _ _ _ _ hrest]
          simp [planTrace, succeededOf, conflictedOf, skippedOf,
            List.map_append, List.append_assoc]
      | some p =>
          have hp : planNotFailed exec (some p) = true :=
            h (o, some p) (List.mem_cons_self _ _)
          cases hres : exec p with
          | Succeeded =>
              simp only [executePlansGo, hres]
              rw [ih _ _ _ _ hrest]
              simp [planTrace, succeededOf, conflictedOf, skippedOf, hres,
                List.map_append, List.append_assoc]
          | DeclinedToMerge =>
              simp only [executePlansGo, hres]
              rw [ih _ _ _ _ hrest]
              simp [planTrace, succeededOf, conflictedOf, skippedOf, hres,
                List.map_append, List.append_assoc]
          | Failed c =>
              exfalso
              rw [planNotFailed, hres] at hp
              simp [ExecuteRebasePlanResult.isFailed] at hp

theorem buckets_perm (exec : Plan → ExecuteRebasePlanResult)
    (xs : List (Oid × Option Plan)) (h : noFailed exec xs) :
    (succeededOf exec xs ++ conflictedOf exec xs ++ skippedOf xs).Perm
      (xs.map Prod.fst) := by
  rw [← Multiset.coe_eq_coe]
  induction xs with
  | nil => simp [succeededOf, conflictedOf, skippedOf]
  | cons e rest ih =>
      obtain ⟨o, op⟩ := e
      have hrest : noFailed exec rest := fun e' he' => h e' (List.mem_cons_of_mem _ he')
      have ih' := ih hrest
      match op with
      | none =>
          simp only [skippedOf, succeededOf, conflictedOf, List.map_cons]
          simp only [← Multiset.coe_add, ← Multiset.cons_coe, Multiset.add_cons,
            Multiset.cons_add] at ih' ⊢
          rw [ih']
      | some p =>
          have hp : planNotFailed exec (some p) = true :=
            h (o, some p) (List.mem_cons_self _ _)
          cases hres : exec p with
          | Succeeded =>
              simp only [skippedOf, succeededOf, conflictedOf, List.map_cons, hres,
                reduceCtorEq, reduceIte, if_true, if_false, ite_true, ite_false]
              simp only [← Multiset.coe_add, ← Multiset.cons_coe, Multiset.add_cons,
                Multiset.cons_add] at ih' ⊢
              rw [ih']
          | DeclinedToMerge =>
              simp only [skippedOf, succeededOf, conflictedOf, List.map_cons, hres,
                reduceCtorEq, reduceIte, if_true, if_false, ite_true, ite_false]
              simp only [← Multiset.coe_add, ← Multiset.cons_coe, Multiset.add_cons,
                Multiset.cons_add] at ih' ⊢
              rw [ih']
          | Failed c =>
              exfalso
              rw [planNotFailed, hres] at hp
              simp [ExecuteRebasePlanResult.isFailed] at hp

theorem outputOids_append (l l' : List SyncAction) :
    outputOids (l ++ l') = outputOids l ++ outputOids l' := by
  induction l with
  | nil => simp [outputOids]
  | cons a l ih => cases a <;> simp [outputOids, ih]

theorem outputOids_planTrace (xs : List (Oid × Option Plan)) :
    outputOids (planTrace xs) = [] := by
  induction xs with
  | nil => simp [planTrace, outputOids]
  | cons e rest ih =>
      obtain ⟨o, op⟩ := e
      cases op <;> simp [planTrace, outputOids, ih]

theorem outputOids_map_synced (l : List Oid) :
    outputOids (l.map SyncAction.outSynced) = l := by
  induction l with
  | nil => simp [outputOids]
  | cons o l ih => simp [outputOids, ih]

theorem outputOids_map_conflict (l : List Oid) :
    outputOids (l.map SyncAction.outMergeConflict) = l := by
  induction l with
  | nil => simp [outputOids]
  | cons o l ih => simp [outputOids, ih]

theorem outputOids_map_notMoving (l : List Oid) :
    outputOids (l.map SyncAction.outNotMoving) = l := by
  induction l with
  | nil => simp [outputOids]
  | cons o l ih => simp [outputOids, ih]

/-- A snapshot of the commit graph together with the draft classification, as
seen through the queries sync.rs makes.  `parent_entries` is a finite table
from a commit to its parent oids (commits absent from the table have no
parents); since an oid is content-derived, a parent always hashes to a value
different from its child, modelled by requiring parents to be strictly
smaller.  `draft_commits` is the result of `dag.query_draft_commits()`. -/
structure Dag where
  parent_entries : List (Oid × List Oid)
  draft_commits : List Oid
  parents_lt : ∀ e ∈ parent_entries, ∀ p ∈ e.2, p < e.1

/-- The parent oids of a commit. -/
def Dag.parentsOf (dag : Dag) (oid : Oid) : List Oid :=
  match dag.parent_entries.find? (fun e => e.1 == oid) with
  | some e => e.2
  | none => []

theorem Dag.parentsOf_lt (dag : Dag) (oid : Oid) :
    ∀ p ∈ dag.parentsOf oid, p < oid := by
  intro p hp
  rw [Dag.parentsOf] at hp
  cases hfind : dag.parent_entries.find? (fun e => e.1 == oid) with
  | none => rw [hfind] at hp; simp at hp
  | some e =>
      rw [hfind] at hp
      have hmem : e ∈ dag.parent_entries := List.mem_of_find?_eq_some hfind
      have hpred := List.find?_some hfind
      simp only [beq_iff_eq] at hpred
      exact hpred ▸ dag.parents_lt e hmem p hp

/-- Proper-ancestor closure computed with explicit fuel; since every parent is
strictly smaller than its child, fuel `oid` is enough to exhaust every chain
starting from `oid`. -/
def ancestorsFuel (dag : Dag) : Nat → Oid → List Oid
  | 0, _ => []
  | fuel + 1, oid =>
      (dag.parentsOf oid).flatMap fun p => p :: ancestorsFuel dag fuel p

/-- The proper ancestors of a commit (its parents, their parents, and so on),
as computed by the dag. -/
def Dag.ancestors (dag : Dag) (oid : Oid) : List Oid :=
  ancestorsFuel dag oid oid

/-- Relation `IsAncestorOf dag a oid`: `a` is a proper ancestor of `oid` (reachable by
following at least one parent edge). -/
inductive IsAncestorOf (dag : Dag) : Oid → Oid → Prop where
  | parent {p oid : Oid} : p ∈ dag.parentsOf oid → IsAncestorOf dag p oid
  | head {a p oid : Oid} : p ∈ dag.parentsOf oid → IsAncestorOf dag a p →
      IsAncestorOf dag a oid

theorem mem_ancestorsFuel_sound (dag : Dag) (fuel : Nat) (oid a : Oid)
    (h : a ∈ ancestorsFuel dag fuel oid) : IsAncestorOf dag a oid := by
  induction fuel generalizing oid with
  | zero => rw [ancestorsFuel] at h; simp at h
  | succ fuel ih =>
      rw [ancestorsFuel, List.mem_flatMap] at h
      obtain ⟨p, hp, hmem⟩ := h
      rcases List.mem_cons.mp hmem with heq | htail
      · exact heq ▸ IsAncestorOf.parent hp
      · exact IsAncestorOf.head hp (ih p htail)

theorem mem_ancestorsFuel_complete (dag : Dag) :
    ∀ oid a, IsAncestorOf dag a oid →
      ∀ fuel, oid ≤ fuel → a ∈ ancestorsFuel dag fuel oid := by
  intro oid
  induction oid using Nat.strong_induction_on with
  | _ oid ih =>
      intro a h
      cases h with
      | parent hp =>
          intro fuel hfuel
          have hlt : a < oid := dag.parentsOf_lt oid a hp
          cases fuel with
          | zero => exact absurd (Nat.lt_of_lt_of_le hlt hfuel) (Nat.not_lt_zero a)
          | succ fuel =>
              rw [ancestorsFuel, List.mem_flatMap]
              exact ⟨a, hp, List.mem_cons_self _ _⟩
      | head hp hanc =>
          rename_i p
          intro fuel hfuel
          have hlt : p < oid := dag.parentsOf_lt oid p hp
          cases fuel with
          | zero => exact absurd (Nat.lt_of_lt_of_le hlt hfuel) (Nat.not_lt_zero p)
          | succ fuel =>
              rw [ancestorsFuel, List.mem_flatMap]
              exact ⟨p, hp,
                List.mem_cons_of_mem _ (ih p hlt a hanc fuel
                  (Nat.lt_succ_iff.mp (Nat.lt_of_lt_of_le hlt hfuel)))⟩

theorem Dag.mem_ancestors (dag : Dag) (oid a : Oid) :
    a ∈ dag.ancestors oid ↔ IsAncestorOf dag a oid := by
  constructor
  · exact mem_ancestorsFuel_sound dag oid oid a
  · intro h
    exact mem_ancestorsFuel_complete dag oid a h oid (Nat.le_refl _)

/-- Modelled from the spec: `dag.query().roots` comes from the eden_dag crate,
which is not part of the excerpted sources.  Spec, section 3: "root extraction
(elements with no in-set parent)"; glossary entry for stack root: "a draft
commit with no draft ancestor -- the algebraic roots of
`query_draft_commits()`".  We take the roots of a set to be its elements with
no proper ancestor inside the set. -/
def dagRoots (dag : Dag) (commit_set : List Oid) : List Oid :=
  commit_set.filter fun x =>
    !(commit_set.any fun y => decide (y ∈ dag.ancestors x))

/-- Function `get_stack_roots` (sync.rs lines 30-38): the roots of
`query_draft_commits()`. -/
def get_stack_roots (dag : Dag) : List Oid :=
  dagRoots dag dag.draft_commits

theorem mem_get_stack_roots (dag : Dag) (x : Oid) :
    x ∈ get_stack_roots dag ↔
      x ∈ dag.draft_commits ∧ ∀ y ∈ dag.draft_commits, ¬ IsAncestorOf dag y x := by
  rw [get_stack_roots, dagRoots, List.mem_filter]
  simp only [Bool.not_eq_true', List.any_eq_false, decide_eq_true_eq,
    Dag.mem_ancestors]

/-- Error `BuildRebasePlanError` (lib::core::rewrite): structural build failure.
Its payload is only used for reporting, so it is collapsed to one token. -/
inductive BuildRebasePlanError where
  | buildError
deriving DecidableEq, Repr

/-- The per-root closure of `execute_sync_plans` (sync.rs lines 332-351): if
the root commit's only parent is already the main branch oid, pair the root
with no plan (skip); otherwise register `move_subtree(root, [main])` and call
`build`, propagating a structural build error.  `only_parent` stands for
`Commit::get_only_parent` and `build` for the builder pipeline
(`move_subtree` + `build`) applied to the root. -/
def plan_for_root (main_branch_oid : Oid) (only_parent : Oid → Option Oid)
    (build : Oid → Except BuildRebasePlanError (Option Plan))
    (root_commit_oid : Oid) :
    Except BuildRebasePlanError (Oid × Option Plan) :=
  if only_parent root_commit_oid = some main_branch_oid then
    Except.ok (root_commit_oid, none)
  else
    match build root_commit_oid with
    | .error err => .error err
    | .ok rebase_plan => .ok (root_commit_oid, rebase_plan)

/-- Rust's `collect::<Result<Vec<_>, _>>()`: first error wins, otherwise the list of
successes in order. -/
def collectExcept : List (Except ε α) → Except ε (List α)
  | [] => .ok []
  | .error err :: _ => .error err
  | .ok a :: rest =>
      match collectExcept rest with
      | .error err => .error err
      | .ok tail => .ok (a :: tail)

/-- Environment for `execute_sync_plans` (sync.rs lines 276-374): the results
of the collaborator calls it makes.  `resolve_ok` is whether `resolve_commits`
succeeded on the user-supplied revsets; `selected_roots` is
`dag.query().roots(union_all(commit_sets))` when revsets were supplied (`none`
models an empty revset list, which falls back to `get_stack_roots`);
`verify_ok` is the result of `RebasePlanPermissions::verify_rewrite_set`;
`only_parent`, `build` and `exec` are as in `plan_for_root` and
`execute_plans`.  The list order stands for the `sorted_commit_set` order. -/
structure SyncPlansEnv where
  resolve_ok : Bool
  dag : Dag
  selected_roots : Option (List Oid)
  main_branch_oid : Oid
  verify_ok : Bool
  only_parent : Oid → Option Oid
  build : Oid → Except BuildRebasePlanError (Option Plan)
  exec : Plan → ExecuteRebasePlanResult

/-- The root commit oids `execute_sync_plans` iterates over (sync.rs lines
307-311): the stack roots by default, or the roots of the resolved revsets. -/
def syncRoots (env : SyncPlansEnv) : List Oid :=
  match env.selected_roots with
  | none => get_stack_roots env.dag
  | some roots => roots

/-- Function `execute_sync_plans` (sync.rs lines 276-374): failed revset resolution or
a failed permission check exit with code 1; a structural build error from any
root exits with code 1; otherwise the collected (root, plan) pairs are handed
to `execute_plans`. -/
def execute_sync_plans (env : SyncPlansEnv) : Int × List SyncAction :=
  if env.resolve_ok = false then (1, [])
  else if env.verify_ok = false then (1, [])
  else
    match collectExcept ((syncRoots env).map
        (plan_for_root env.main_branch_oid env.only_parent env.build)) with
    | .error _ => (1, [])
    | .ok root_commit_and_plans => execute_plans env.exec root_commit_and_plans

/-- The optional plan `plan_for_root` pairs with a root when it succeeds
(`none` when the result is a build error, which `execute_sync_plans` turns
into exit code 1 before any plan is looked at). -/
def planOfRoot (env : SyncPlansEnv) (root_commit_oid : Oid) : Option Plan :=
  match plan_for_root env.main_branch_oid env.only_parent env.build
      root_commit_oid with
  | .ok pr => pr.2
  | .error _ => none

/-- Every root's `plan_for_root` call succeeds (no structural build error). -/
abbrev buildsOk (env : SyncPlansEnv) : Prop :=
  ∀ r ∈ syncRoots env,
    (plan_for_root env.main_branch_oid env.only_parent env.build r).isOk = true

theorem plan_for_root_ok (env : SyncPlansEnv) (r : Oid)
    (h : (plan_for_root env.main_branch_oid env.only_parent env.build r).isOk
      = true) :
    plan_for_root env.main_branch_oid env.only_parent env.build r =
      .ok (r, planOfRoot env r) := by
  rw [planOfRoot]
  cases hpr : plan_for_root env.main_branch_oid env.only_parent env.build r with
  | error err => rw [hpr] at h; simp [Except.isOk, Except.toBool] at h
  | ok pr =>
      have hfst : pr.1 = r := by
        rw [plan_for_root] at hpr
        by_cases hop : env.only_parent r = some env.main_branch_oid
        · rw [if_pos hop] at hpr
          cases hpr
          rfl
        · rw [if_neg hop] at hpr
          cases hbuild : env.build r with
          | error err => rw [hbuild] at hpr; cases hpr
          | ok plan => rw [hbuild] at hpr; cases hpr; rfl
      cases pr
      simp_all

theorem collectExcept_map_ok (env : SyncPlansEnv) (roots : List Oid)
    (h : ∀ r ∈ roots,
      (plan_for_root env.main_branch_oid env.only_parent env.build r).isOk
        = true) :
    collectExcept (roots.map
        (plan_for_root env.main_branch_oid env.only_parent env.build)) =
      .ok (roots.map fun r => (r, planOfRoot env r)) := by
  induction roots with
  | nil => simp [collectExcept]
  | cons r rest ih =>
      have hr := plan_for_root_ok env r (h r (List.mem_cons_self _ _))
      have hrest := ih fun r' hr' => h r' (List.mem_cons_of_mem _ hr')
      simp only [List.map_cons, hr, collectExcept, hrest]

/-- Modelled from the spec: `RebasePlanPermissions::verify_rewrite_set`
(lib::core::rewrite, not in the excerpted sources).  Spec, section 4.3:
"rewriting fails with PolicyError::PublicCommit unless
force_rewrite_public_commits is set".  The result is whether permission is
granted for the target set. -/
def verify_rewrite_set (force_rewrite_public_commits : Bool)
    (has_public_commits : Bool) : Bool :=
  force_rewrite_public_commits || !has_public_commits

/-- Rust's `Itertools::exactly_one` on a vector of oids: the sole element, if the
list has exactly one. -/
def exactly_one : List Oid → Option Oid
  | [x] => some x
  | _ => none

/-- Environment for `execute_main_branch_sync_plan` (sync.rs lines 131-274).
`upstream_branch` models `get_upstream_branch()` (`none`: main tracks no
upstream) and, inside, `get_oid()` on that branch (`none`: the upstream
branch has no oid).  `local_main_branch_oid` is `get_oid()` on the local main
branch.  `local_main_branch_commits` is the dag query
`only(local_main_branch_oid, upstream_main_branch_oid)` (the local main
branch's unique commits) and `local_main_branch_roots` its `roots`; both are
dag results and enter as data.  `unique_has_public` feeds the (spec-modelled)
permission check; `build` is the builder's `build` result and `exec` the
executor. -/
structure MainBranchSyncEnv where
  upstream_branch : Option (Option Oid)
  local_main_branch_oid : Option Oid
  local_main_branch_commits : List Oid
  local_main_branch_roots : List Oid
  unique_has_public : Bool
  build : Except BuildRebasePlanError (Option Plan)
  exec : Plan → ExecuteRebasePlanResult

/-- Function `execute_main_branch_sync_plan` (sync.rs lines 131-274).  Control flow of
the source: no upstream branch, or an upstream branch without an oid, exits 0
doing nothing (lines 165-179).  If the unique-commit set is empty, the code
prints either "Not updating ..." (local oid equals upstream oid) or
"Fast-forwarding ..." and in BOTH cases calls
`repo.create_reference(local_main, upstream_oid, force=true, "sync")` (lines
190-218), then exits 0.  Otherwise `verify_rewrite_set` runs with
`force_rewrite_public_commits` hardcoded to `true` (lines 227-243), the
builder is constructed (line 244), and unless the roots of the unique-commit
set are exactly one oid the function exits 0 (lines 245-252).  With a sole
root, `move_subtree(root, [upstream])` and `build` run (lines 253-260); a
build error exits 1, a `None` plan exits 0, and otherwise `execute_plans`
runs on the singleton list (lines 261-273). -/
def execute_main_branch_sync_plan (env : MainBranchSyncEnv) :
    Int × List SyncAction :=
  match env.upstream_branch with
  | none => (0, [])
  | some none => (0, [])
  | some (some upstream_main_branch_oid) =>
    if env.local_main_branch_commits.isEmpty then
      (0, [SyncAction.createReference upstream_main_branch_oid])
    else
      if verify_rewrite_set true env.unique_has_public = false then (1, [])
      else
        match exactly_one env.local_main_branch_roots with
        | none => (0, [SyncAction.newBuilder])
        | some root_commit_oid =>
          match env.build with
          | .error _ =>
              (1, [SyncAction.newBuilder,
                SyncAction.moveSubtree root_commit_oid [upstream_main_branch_oid],
                SyncAction.buildPlan])
          | .ok none =>
              (0, [SyncAction.newBuilder,
                SyncAction.moveSubtree root_commit_oid [upstream_main_branch_oid],
                SyncAction.buildPlan])
          | .ok (some rebase_plan) =>
              let res := execute_plans env.exec [(root_commit_oid, some rebase_plan)]
              (res.1, [SyncAction.newBuilder,
                SyncAction.moveSubtree root_commit_oid [upstream_main_branch_oid],
                SyncAction.buildPlan] ++ res.2)

/-- Environment for `sync` (sync.rs lines 41-129).  `parse_ok` is whether
`check_revset_syntax` accepted the user-supplied revsets;
`fetch_exit_code` the exit code of `git fetch --all`. -/
structure SyncEnv where
  parse_ok : Bool
  pull : Bool
  fetch_exit_code : Int
  main : MainBranchSyncEnv
  plans : SyncPlansEnv

/-- Function `sync` (sync.rs lines 41-129).  `check_revset_syntax` runs before the
fetch and before any dag or repository mutation (lines 55-57); on a parse
error the `?` operator propagates it and the command aborts.  Modelled from
the spec for the part outside the excerpted sources: the CLI entry point maps
the propagated error to exit code 1 ("malformed syntax aborts with exit code
1 before any fetch or mutation occurs", spec section 6).  With `--pull`, the
fetch runs and a non-zero fetch exit code is returned as is (lines 59-64);
then the main-branch advance runs and a non-zero exit code from it is
returned (lines 99-113); finally `execute_sync_plans` runs (lines 117-128). -/
def sync (env : SyncEnv) : Int × List SyncAction :=
  if env.parse_ok = false then (1, [])
  else
    let fetch_trace : List SyncAction :=
      if env.pull then [SyncAction.fetch] else []
    if env.pull ∧ env.fetch_exit_code ≠ 0 then (env.fetch_exit_code, fetch_trace)
    else
      let main_res : Int × List SyncAction :=
        if env.pull then execute_main_branch_sync_plan env.main else (0, [])
      if main_res.1 ≠ 0 then (main_res.1, fetch_trace ++ main_res.2)
      else
        let plans_res := execute_sync_plans env.plans
        (plans_res.1, fetch_trace ++ main_res.2 ++ plans_res.2)

/-- How a subprocess terminated, as surfaced by Rust's
`std::process::ExitStatus`: either a normal exit with a code, or (on Unix)
termination by a signal, in which case `ExitStatus::code()` is `None`. -/
inductive ExitStatus where
  | exited (code : Int)
  | signaled (signal : Nat)
deriving DecidableEq, Repr

/-- Rust's `ExitStatus::code()`. -/
def ExitStatus.code : ExitStatus → Option Int
  | .exited c => some c
  | .signaled _ => none

/-- The exit code computed by `GitRunInfo::run` (run.rs lines 78-85):
`exit_status.code().unwrap_or(1)` — the comment in the source says "if the
child process was terminated by a signal ... just return 1 in those cases".
The subsequent i32-to-isize `try_into` is the identity on every supported
target (isize is at least 32 bits) and is modelled as such. -/
def run_exit_code (exit_status : ExitStatus) : Int :=
  (ExitStatus.code exit_status).getD 1

/-- Environment for `GitRunInfo::run_hook` (run.rs lines 145-200).
`hook_exists` is `hook_dir.join(hook_name).exists()`; `workdir` is
`repo.workdir()` (`none` for a bare repository); `repo_path` is
`repo.path()`; `stdin_data` the optional input; `hook_exit_status` how the
hook process terminates. -/
structure HookEnv where
  hook_name : String
  hook_exists : Bool
  workdir : Option String
  repo_path : String
  args : List String
  stdin_data : Option String
  hook_exit_status : ExitStatus

/-- One observable effect of `run_hook`: spawning the hook process (with its
working directory, name, arguments, and whether the transaction-id
environment variable is set), writing the provided input to its stdin, and
waiting for its exit status. -/
inductive HookAction where
  | spawnHook (cwd : String) (hook_name : String) (args : List String)
      (tx_env_set : Bool)
  | writeStdin (input : String)
  | waitHook (status : ExitStatus)
deriving DecidableEq, Repr

/-- Function `GitRunInfo::run_hook` (run.rs lines 145-200).  If the hook file does not
exist, nothing runs and the function returns `Ok(())` (the `if` at line 174
guards the whole body).  Otherwise the hook is spawned with
`current_dir(repo.workdir().unwrap_or_else(|| repo.path()))` (line 179), with
`BRANCHLESS_TRANSACTION_ID_ENV_VAR` set (line 186), the provided stdin is
written when present (lines 192-195), and the exit status is waited for and
discarded (`let _ignored: ExitStatus = child.wait()?` at line 197); the
function then returns `Ok(())` (line 199).  I/O failures of
canonicalize/spawn/write (which would propagate as errors) are outside this
model: the modelled paths are the hook-missing fast path and a successfully
spawned hook. -/
def run_hook (env : HookEnv) : Except Unit Unit × List HookAction :=
  if env.hook_exists then
    (Except.ok (),
      [HookAction.spawnHook ((env.workdir).getD env.repo_path) env.hook_name
          env.args true]
        ++ (match env.stdin_data with
            | some input => [HookAction.writeStdin input]
            | none => [])
        ++ [HookAction.waitHook env.hook_exit_status])
  else (Except.ok (), [])

/-- Sample executor: plan 2 hits a merge conflict, everything else succeeds. -/
def sampleExec : Plan → ExecuteRebasePlanResult := fun p =>
  if p = 2 then ExecuteRebasePlanResult.DeclinedToMerge
  else ExecuteRebasePlanResult.Succeeded

/-- Three independent stacks: the second one merge-conflicts, the third is
already up to date (no plan). -/
def samplePlans : List (Oid × Option Plan) := [(10, some 1), (11, some 2), (12, none)]

/-- Sample executor with a transport failure: plan 2 fails with exit code 3. -/
def sampleFailExec : Plan → ExecuteRebasePlanResult := fun p =>
  if p = 2 then ExecuteRebasePlanResult.Failed 3
  else ExecuteRebasePlanResult.Succeeded

/-- Two disjoint draft chains: 1 <- 2 and 3 <- 4 (arrow towards the child). -/
def twoChainsDag : Dag where
  parent_entries := [(2, [1]), (4, [3])]
  draft_commits := [1, 2, 3, 4]
  parents_lt := by decide

/-- Two draft roots 1 and 2 that are both ancestors of the downstream merge
commit 3. -/
def mergeDag : Dag where
  parent_entries := [(3, [1, 2])]
  draft_commits := [1, 2, 3]
  parents_lt := by decide

/-- A dag with no commits (placeholder where a query result is supplied
directly). -/
def emptyDag : Dag where
  parent_entries := []
  draft_commits := []
  parents_lt := by decide

/-- Sample sync-plans environment: roots 5 and 6 on main tip 3; root 5's only
parent is already the main tip, root 6 needs a plan, which succeeds. -/
def sampleSyncPlansEnv : SyncPlansEnv where
  resolve_ok := true
  dag := emptyDag
  selected_roots := some [5, 6]
  main_branch_oid := 3
  verify_ok := true
  only_parent := fun r => if r = 5 then some 3 else some 9
  build := fun _ => Except.ok (some 7)
  exec := fun _ => ExecuteRebasePlanResult.Succeeded

/-- Main-branch environment where the local main oid 7 already equals the
upstream main oid 7, so its unique-commit set is empty. -/
def mainEnvEq : MainBranchSyncEnv where
  upstream_branch := some (some 7)
  local_main_branch_oid := some 7
  local_main_branch_commits := []
  local_main_branch_roots := []
  unique_has_public := false
  build := Except.ok none
  exec := fun _ => ExecuteRebasePlanResult.Succeeded

/-- Main-branch environment whose unique-commit set has two roots (4 and 5),
e.g. after a history with two local heads merged below main. -/
def mainEnvTwoRoots : MainBranchSyncEnv where
  upstream_branch := some (some 9)
  local_main_branch_oid := some 4
  local_main_branch_commits := [4, 5]
  local_main_branch_roots := [4, 5]
  unique_has_public := true
  build := Except.ok none
  exec := fun _ => ExecuteRebasePlanResult.Succeeded

/-- Sync environment whose revsets fail the syntax check. -/
def sampleSyncEnvBadParse : SyncEnv where
  parse_ok := false
  pull := true
  fetch_exit_code := 0
  main := mainEnvEq
  plans := sampleSyncPlansEnv

/-- Sample hook environment: the hook exists, the repository has a working
tree, input is provided, and the hook exits non-zero. -/
def sampleHookEnv : HookEnv where
  hook_name := "post-rewrite"
  hook_exists := true
  workdir := some ("/repo")
  repo_path := "/repo/.git"
  args := ["1"]
  stdin_data := some ("abc")
  hook_exit_status := ExitStatus.exited 2

theorem mem_skippedOf (xs : List (Oid × Option Plan)) (o : Oid) :
    o ∈ skippedOf xs ↔ (o, (none : Option Plan)) ∈ xs := by
  induction xs with
  | nil => simp [skippedOf]
  | cons e rest ih =>
      obtain ⟨o', op⟩ := e
      cases op <;> simp [skippedOf, ih, List.mem_cons]

theorem mem_succeededOf (exec : Plan → ExecuteRebasePlanResult)
    (xs : List (Oid × Option Plan)) (o : Oid) (h : o ∈ succeededOf exec xs) :
    ∃ p, (o, some p) ∈ xs ∧ exec p = .Succeeded := by
  induction xs with
  | nil => rw [succeededOf] at h; cases h
  | cons e rest ih =>
      obtain ⟨o', op⟩ := e
      match op with
      | none =>
          rw [succeededOf] at h
          obtain ⟨p, hp, he⟩ := ih h
          exact ⟨p, List.mem_cons_of_mem _ hp, he⟩
      | some q =>
          rw [succeededOf] at h
          by_cases hq : exec q = .Succeeded
          · rw [if_pos hq] at h
            rcases List.mem_cons.mp h with rfl | htail
            · exact ⟨q, List.mem_cons_self _ _, hq⟩
            · obtain ⟨p, hp, he⟩ := ih htail
              exact ⟨p, List.mem_cons_of_mem _ hp, he⟩
          · rw [if_neg hq] at h
            obtain ⟨p, hp, he⟩ := ih h
            exact ⟨p, List.mem_cons_of_mem _ hp, he⟩

theorem mem_conflictedOf (exec : Plan → ExecuteRebasePlanResult)
    (xs : List (Oid × Option Plan)) (o : Oid) (h : o ∈ conflictedOf exec xs) :
    ∃ p, (o, some p) ∈ xs ∧ exec p = .DeclinedToMerge := by
  induction xs with
  | nil => rw [conflictedOf] at h; cases h
  | cons e rest ih =>
      obtain ⟨o', op⟩ := e
      match op with
      | none =>
          rw [conflictedOf] at h
          obtain ⟨p, hp, he⟩ := ih h
          exact ⟨p, List.mem_cons_of_mem _ hp, he⟩
      | some q =>
          rw [conflictedOf] at h
          by_cases hq : exec q = .DeclinedToMerge
          · rw [if_pos hq] at h
            rcases List.mem_cons.mp h with rfl | htail
            · exact ⟨q, List.mem_cons_self _ _, hq⟩
            · obtain ⟨p, hp, he⟩ := ih htail
              exact ⟨p, List.mem_cons_of_mem _ hp, he⟩
          · rw [if_neg hq] at h
            obtain ⟨p, hp, he⟩ := ih h
            exact ⟨p, List.mem_cons_of_mem _ hp, he⟩

theorem mem_planTrace (xs : List (Oid × Option Plan)) (a : SyncAction)
    (h : a ∈ planTrace xs) : ∃ p, a = SyncAction.executeRebasePlan p := by
  induction xs with
  | nil => rw [planTrace] at h; cases h
  | cons e rest ih =>
      obtain ⟨o', op⟩ := e
      match op with
      | none => rw [planTrace] at h; exact ih h
      | some q =>
          rw [planTrace] at h
          rcases List.mem_cons.mp h with rfl | htail
          · exact ⟨q, rfl⟩
          · exact ih htail

theorem pairs_no_some (env : SyncPlansEnv) (root : Oid)
    (hplan : planOfRoot env root = none) :
    ∀ q : Plan,
      (root, some q) ∉ (syncRoots env).map fun r => (r, planOfRoot env r) := by
  intro q hq
  rw [List.mem_map] at hq
  obtain ⟨r, hr, heq⟩ := hq
  obtain ⟨h1, h2⟩ := Prod.mk.injEq .. ▸ heq
  rw [h1, hplan] at h2
  cases h2

theorem planOfRoot_none (env : SyncPlansEnv) (root : Oid)
    (hskip : env.only_parent root = some env.main_branch_oid ∨
      env.build root = .ok none) :
    planOfRoot env root = none := by
  rw [planOfRoot, plan_for_root]
  by_cases hop : env.only_parent root = some env.main_branch_oid
  · rw [if_pos hop]
  · rw [if_neg hop]
    rcases hskip with h | h
    · exact absurd h hop
    · rw [h]

/-- C1: for every list of (root, optional plan) pairs passed to
`execute_plans`, when no executor result is the transport-level `Failed`,
the function returns exit code 0 and the oids mentioned by its report lines
are a permutation of the input roots — every processed root lands in exactly
one of the three outcome buckets (Synced / Merge conflict / Not moving
up-to-date stack) and is reported in exactly one line, and a merge conflict
on one root does not stop processing of the remaining roots. -/
theorem C1_execute_plans_buckets (exec : Plan → ExecuteRebasePlanResult)
    (xs : List (Oid × Option Plan)) (h : noFailed exec xs) :
    (execute_plans exec xs).1 = 0 ∧
    (outputOids (execute_plans exec xs).2).Perm (xs.map Prod.fst) := by
  rw [execute_plans, executePlansGo_noFailed exec xs [] [] [] [] h]
  refine ⟨rfl, ?_⟩
  simp only [List.nil_append, outputOids_append, outputOids_planTrace,
    outputOids_map_synced, outputOids_map_conflict, outputOids_map_notMoving]
  exact buckets_perm exec xs h

theorem C1_execute_plans_buckets_witness :
    (execute_plans sampleExec samplePlans).1 = 0 ∧
    (outputOids (execute_plans sampleExec samplePlans).2).Perm
      (samplePlans.map Prod.fst) :=
  C1_execute_plans_buckets sampleExec samplePlans (by decide)

theorem executePlansGo_failed (exec : Plan → ExecuteRebasePlanResult)
    (pre : List (Oid × Option Plan)) (r : Oid) (p : Plan)
    (post : List (Oid × Option Plan)) (c : Int) (s m k : List Oid)
    (tr : List SyncAction) (hpre : noFailed exec pre)
    (hfail : exec p = .Failed c) :
    executePlansGo exec (pre ++ (r, some p) :: post) s m k tr =
      (c, tr ++ planTrace pre ++ [SyncAction.executeRebasePlan p]) := by
  induction pre generalizing s m k tr with
  | nil =>
      simp [executePlansGo, hfail, planTrace]
  | cons e rest ih =>
      obtain ⟨o, op⟩ := e
      have hrest : noFailed exec rest := fun e' he' =>
        hpre e' (List.mem_cons_of_mem _ he')
      match op with
      | none =>
          rw [List.cons_append, executePlansGo, ih _ _ _ _ hrest]
          simp [planTrace]
      | some q =>
          have hq : planNotFailed exec (some q) = true :=
            hpre (o, some q) (List.mem_cons_self _ _)
          cases hres : exec q with
          | Succeeded =>
              rw [List.cons_append]
              simp only [executePlansGo, hres]
              rw [ih _ _ _ _ hrest]
              simp [planTrace, List.append_assoc]
          | DeclinedToMerge =>
              rw [List.cons_append]
              simp only [executePlansGo, hres]
              rw [ih _ _ _ _ hrest]
              simp [planTrace, List.append_assoc]
          | Failed c2 =>
              exfalso
              rw [planNotFailed, hres] at hq
              simp [ExecuteRebasePlanResult.isFailed] at hq

/-- C2: if executing some root's plan yields `Failed { exit_code }` and no
earlier entry failed, `execute_plans` returns that exit code immediately: the
result does not depend on the remaining entries (no further root's plan is
executed — the trace ends at the failing `execute_rebase_plan` call) and no
outcome lines are printed for any root. -/
theorem C2_failed_aborts (exec : Plan → ExecuteRebasePlanResult)
    (pre : List (Oid × Option Plan)) (r : Oid) (p : Plan)
    (post : List (Oid × Option Plan)) (c : Int) (hpre : noFailed exec pre)
    (hfail : exec p = .Failed c) :
    execute_plans exec (pre ++ (r, some p) :: post) =
      (c, planTrace pre ++ [SyncAction.executeRebasePlan p]) ∧
    outputOids (execute_plans exec (pre ++ (r, some p) :: post)).2 = [] := by
  have h : execute_plans exec (pre ++ (r, some p) :: post) =
      (c, planTrace pre ++ [SyncAction.executeRebasePlan p]) := by
    rw [execute_plans, executePlansGo_failed exec pre r p post c [] [] [] []
      hpre hfail]
    simp
  refine ⟨h, ?_⟩
  rw [h]
  simp [outputOids_append, outputOids_planTrace, outputOids]

theorem C2_failed_aborts_witness :
    execute_plans sampleFailExec ([(10, some 1)] ++ (11, some 2) :: [(12, some 5)]) =
      (3, planTrace [(10, some 1)] ++ [SyncAction.executeRebasePlan 2]) ∧
    outputOids (execute_plans sampleFailExec
      ([(10, some 1)] ++ (11, some 2) :: [(12, some 5)])).2 = [] :=
  C2_failed_aborts sampleFailExec [(10, some 1)] 11 2 [(12, some 5)] 3
    (by decide) (by decide)

/-- C4: a stack root whose sole parent is already the main-branch tip, and a
root whose `build` returns `Ok(None)`, is paired with no plan, classified as
skipped (reported "Not moving up-to-date stack at ..."), never as succeeded
or merge-conflicted, and no plan of its own is ever in the executed list
(the pipeline assumed to reach the report: resolution, permission check and
all builds succeed, and no transport failure occurs). -/
theorem C4_up_to_date_root_skipped (env : SyncPlansEnv) (root : Oid)
    (hresolve : env.resolve_ok = true) (hverify : env.verify_ok = true)
    (hbuilds : buildsOk env)
    (hnofail : noFailed env.exec
      ((syncRoots env).map fun r => (r, planOfRoot env r)))
    (hmem : root ∈ syncRoots env)
    (hskip : env.only_parent root = some env.main_branch_oid ∨
      env.build root = .ok none) :
    planOfRoot env root = none ∧
    (execute_sync_plans env).1 = 0 ∧
    SyncAction.outNotMoving root ∈ (execute_sync_plans env).2 ∧
    SyncAction.outSynced root ∉ (execute_sync_plans env).2 ∧
    SyncAction.outMergeConflict root ∉ (execute_sync_plans env).2 ∧
    (∀ q : Plan, (root, some q) ∉ (syncRoots env).map
      fun r => (r, planOfRoot env r)) := by
  have hplan : planOfRoot env root = none := planOfRoot_none env root hskip
  have hcollect := collectExcept_map_ok env (syncRoots env) hbuilds
  have hrun : execute_sync_plans env =
      execute_plans env.exec ((syncRoots env).map fun r => (r, planOfRoot env r)) := by
    rw [execute_sync_plans, hresolve, hverify, hcollect]
    simp
  have hsplit := executePlansGo_noFailed env.exec
    ((syncRoots env).map fun r => (r, planOfRoot env r)) [] [] [] [] hnofail
  rw [execute_plans] at hrun
  rw [hsplit] at hrun
  simp only [List.nil_append] at hrun
  have hpairmem : (root, (none : Option Plan)) ∈
      (syncRoots env).map fun r => (r, planOfRoot env r) :=
    List.mem_map.mpr ⟨root, hmem, by rw [hplan]⟩
  refine ⟨hplan, ?_, ?_, ?_, ?_, pairs_no_some env root hplan⟩
  · rw [hrun]
  · rw [hrun]
    refine List.mem_append_right _ (List.mem_map.mpr
      ⟨root, (mem_skippedOf _ root).mpr hpairmem, rfl⟩)
  · intro hbad
    rw [hrun] at hbad
    simp only [List.mem_append] at hbad
    rcases hbad with ((h1 | h2) | h3) | h4
    · obtain ⟨q, hq⟩ := mem_planTrace _ _ h1
      cases hq
    · obtain ⟨x, hx, hxe⟩ := List.mem_map.mp h2
      cases hxe
      obtain ⟨q, hq, _⟩ := mem_succeededOf env.exec _ _ hx
      exact pairs_no_some env root hplan q hq
    · obtain ⟨x, hx, hxe⟩ := List.mem_map.mp h3
      cases hxe
    · obtain ⟨x, hx, hxe⟩ := List.mem_map.mp h4
      cases hxe
  · intro hbad
    rw [hrun] at hbad
    simp only [List.mem_append] at hbad
    rcases hbad with ((h1 | h2) | h3) | h4
    · obtain ⟨q, hq⟩ := mem_planTrace _ _ h1
      cases hq
    · obtain ⟨x, hx, hxe⟩ := List.mem_map.mp h2
      cases hxe
    · obtain ⟨x, hx, hxe⟩ := List.mem_map.mp h3
      cases hxe
      obtain ⟨q, hq, _⟩ := mem_conflictedOf env.exec _ _ hx
      exact pairs_no_some env root hplan q hq
    · obtain ⟨x, hx, hxe⟩ := List.mem_map.mp h4
      cases hxe

theorem C4_up_to_date_root_skipped_witness :
    planOfRoot sampleSyncPlansEnv 5 = none ∧
    (execute_sync_plans sampleSyncPlansEnv).1 = 0 ∧
    SyncAction.outNotMoving 5 ∈ (execute_sync_plans sampleSyncPlansEnv).2 ∧
    SyncAction.outSynced 5 ∉ (execute_sync_plans sampleSyncPlansEnv).2 ∧
    SyncAction.outMergeConflict 5 ∉ (execute_sync_plans sampleSyncPlansEnv).2 ∧
    (∀ q : Plan, (5, some q) ∉ (syncRoots sampleSyncPlansEnv).map
      fun r => (r, planOfRoot sampleSyncPlansEnv r)) :=
  C4_up_to_date_root_skipped sampleSyncPlansEnv 5 rfl rfl (by decide) (by decide)
    (by decide) (Or.inl (by decide))

/-- C3 counterexample: with the local main oid equal to the upstream main oid
(7) and hence an empty unique-commit set, the main-branch advance still
performs a reference update (`repo.create_reference` at sync.rs line 212 runs
in both arms of the equality check at lines 191-211), contradicting the
claim that the advance is then a no-op with no reference update. -/
theorem C3_counterexample :
    mainEnvEq.local_main_branch_oid = some 7 ∧
    mainEnvEq.upstream_branch = some (some 7) ∧
    SyncAction.createReference 7 ∈ (execute_main_branch_sync_plan mainEnvEq).2 := by
  decide

/-- C3 (amended): in the main-branch advance, if the local main branch has no
commits outside the ancestry of the upstream main tip (its unique-commit set
is empty), the local main reference is set to the upstream tip without ever
constructing a `RebasePlanBuilder`, building a plan, or executing one; when
the local main oid already equals the upstream oid this same reference
update (to the value the reference already has) is still performed — only
the printed message differs — rather than being skipped. -/
theorem C3_fast_forward (env : MainBranchSyncEnv) (u : Oid)
    (hup : env.upstream_branch = some (some u))
    (hempty : env.local_main_branch_commits = []) :
    execute_main_branch_sync_plan env = (0, [SyncAction.createReference u]) ∧
    SyncAction.newBuilder ∉ (execute_main_branch_sync_plan env).2 ∧
    SyncAction.buildPlan ∉ (execute_main_branch_sync_plan env).2 ∧
    (∀ q : Plan,
      SyncAction.executeRebasePlan q ∉ (execute_main_branch_sync_plan env).2) := by
  have h : execute_main_branch_sync_plan env =
      (0, [SyncAction.createReference u]) := by
    rw [execute_main_branch_sync_plan, hup]
    simp [hempty]
  exact ⟨h, by simp [h], by simp [h], fun q => by simp [h]⟩

theorem C3_fast_forward_witness :
    execute_main_branch_sync_plan mainEnvEq = (0, [SyncAction.createReference 7]) ∧
    SyncAction.newBuilder ∉ (execute_main_branch_sync_plan mainEnvEq).2 ∧
    SyncAction.buildPlan ∉ (execute_main_branch_sync_plan mainEnvEq).2 ∧
    (∀ q : Plan,
      SyncAction.executeRebasePlan q ∉ (execute_main_branch_sync_plan mainEnvEq).2) :=
  C3_fast_forward mainEnvEq 7 rfl rfl

/-- C10: in the main-branch advance, when the unique-commit set is non-empty
but its root set does not have exactly one element, the function returns exit
code 0 having constructed the builder but registered no `move_subtree`
intent, built no plan, executed no plan, and performed no reference update —
the local main branch is left unmoved. -/
theorem C10_no_single_root (env : MainBranchSyncEnv) (u : Oid)
    (hup : env.upstream_branch = some (some u))
    (hne : env.local_main_branch_commits.isEmpty = false)
    (hroots : exactly_one env.local_main_branch_roots = none) :
    execute_main_branch_sync_plan env = (0, [SyncAction.newBuilder]) ∧
    (∀ (r : Oid) (ps : List Oid),
      SyncAction.moveSubtree r ps ∉ (execute_main_branch_sync_plan env).2) ∧
    SyncAction.buildPlan ∉ (execute_main_branch_sync_plan env).2 ∧
    (∀ q : Plan,
      SyncAction.executeRebasePlan q ∉ (execute_main_branch_sync_plan env).2) ∧
    (∀ o : Oid,
      SyncAction.createReference o ∉ (execute_main_branch_sync_plan env).2) := by
  have h : execute_main_branch_sync_plan env = (0, [SyncAction.newBuilder]) := by
    rw [execute_main_branch_sync_plan, hup]
    simp [hne, hroots, verify_rewrite_set]
  exact ⟨h, fun r ps => by simp [h], by simp [h], fun q => by simp [h],
    fun o => by simp [h]⟩

theorem C10_no_single_root_witness :
    execute_main_branch_sync_plan mainEnvTwoRoots = (0, [SyncAction.newBuilder]) ∧
    (∀ (r : Oid) (ps : List Oid),
      SyncAction.moveSubtree r ps ∉ (execute_main_branch_sync_plan mainEnvTwoRoots).2) ∧
    SyncAction.buildPlan ∉ (execute_main_branch_sync_plan mainEnvTwoRoots).2 ∧
    (∀ q : Plan,
      SyncAction.executeRebasePlan q ∉
        (execute_main_branch_sync_plan mainEnvTwoRoots).2) ∧
    (∀ o : Oid,
      SyncAction.createReference o ∉
        (execute_main_branch_sync_plan mainEnvTwoRoots).2) :=
  C10_no_single_root mainEnvTwoRoots 9 rfl rfl rfl

/-- C5 counterexample: a subprocess terminated by signal 9 did not exit with
any code (`ExitStatus::code()` is `None`), yet `GitRunInfo::run` reports exit
code 1 (`unwrap_or(1)` at run.rs line 81) — a translation, refuting the claim
that the returned value equals the subprocess's exit code for every possible
way the subprocess terminates. -/
theorem C5_counterexample :
    ¬ (∀ s : ExitStatus, ∃ c : Int,
        ExitStatus.code s = some c ∧ run_exit_code s = c) ∧
    run_exit_code (ExitStatus.signaled 9) = 1 ∧
    ExitStatus.code (ExitStatus.signaled 9) = none := by
  refine ⟨fun h => ?_, rfl, rfl⟩
  obtain ⟨c, hc, _⟩ := h (ExitStatus.signaled 9)
  rw [ExitStatus.code] at hc
  cases hc

/-- C5 (amended): when the subprocess exits normally with a code,
`GitRunInfo::run` returns exactly that code, untranslated; when the
subprocess is terminated by a signal (so it has no exit code), the value 1 is
returned instead. -/
theorem C5_exit_code_verbatim :
    (∀ c : Int, run_exit_code (ExitStatus.exited c) = c) ∧
    (∀ sig : Nat, run_exit_code (ExitStatus.signaled sig) = 1) :=
  ⟨fun _ => rfl, fun _ => rfl⟩

/-- C6: when the user-supplied commit-selection expressions fail the syntax
check, `sync` aborts with exit code 1 and an empty effect trace: in
particular no fetch has run and no repository or graph mutation has been
performed. -/
theorem C6_parse_checked_before_fetch (env : SyncEnv)
    (hparse : env.parse_ok = false) :
    sync env = (1, []) ∧ SyncAction.fetch ∉ (sync env).2 := by
  have h : sync env = (1, []) := by
    rw [sync, hparse]
    simp
  exact ⟨h, by simp [h]⟩

theorem C6_parse_checked_before_fetch_witness :
    sync sampleSyncEnvBadParse = (1, []) ∧
    SyncAction.fetch ∉ (sync sampleSyncEnvBadParse).2 :=
  C6_parse_checked_before_fetch sampleSyncEnvBadParse rfl

/-- C7: `get_stack_roots` returns exactly the algebraic roots of
`query_draft_commits()` — the draft commits with no draft proper ancestor;
on a dag with two disjoint draft chains 1 <- 2 and 3 <- 4 it returns exactly
the two chain bases [1, 3], and when the two draft roots 1 and 2 are both
ancestors of the downstream merge commit 3 they are still returned as the two
independent rebase units [1, 2] rather than one. -/
theorem C7_stack_roots (dag : Dag) (x : Oid) :
    (x ∈ get_stack_roots dag ↔
      x ∈ dag.draft_commits ∧
        ∀ y ∈ dag.draft_commits, ¬ IsAncestorOf dag y x) ∧
    get_stack_roots twoChainsDag = [1, 3] ∧
    get_stack_roots mergeDag = [1, 2] :=
  ⟨mem_get_stack_roots dag x, by decide, by decide⟩

theorem C7_stack_roots_witness :
    (1 ∈ get_stack_roots twoChainsDag ↔
      1 ∈ twoChainsDag.draft_commits ∧
        ∀ y ∈ twoChainsDag.draft_commits, ¬ IsAncestorOf twoChainsDag y 1) ∧
    get_stack_roots twoChainsDag = [1, 3] ∧
    get_stack_roots mergeDag = [1, 2] :=
  C7_stack_roots twoChainsDag 1

/-- C8: if the named hook file does not exist, `run_hook` returns success
having run nothing; if it exists, the hook is spawned with its working
directory set to the repository's working tree root (not the invoking
process's working directory), with the transaction-id environment variable
set, and with the provided input written to its standard input when
present. -/
theorem C8_run_hook (env : HookEnv) :
    (env.hook_exists = false → run_hook env = (Except.ok (), [])) ∧
    (env.hook_exists = true →
      (run_hook env).1 = Except.ok () ∧
      (∀ w, env.workdir = some w →
        HookAction.spawnHook w env.hook_name env.args true ∈ (run_hook env).2) ∧
      (∀ input, env.stdin_data = some input →
        HookAction.writeStdin input ∈ (run_hook env).2)) := by
  constructor
  · intro h
    rw [run_hook, h]
    simp
  · intro h
    refine ⟨by rw [run_hook, h]; simp, ?_, ?_⟩
    · intro w hw
      rw [run_hook, h, hw]
      simp
    · intro input hin
      rw [run_hook, h, hin]
      simp

theorem C8_run_hook_witness :
    (run_hook sampleHookEnv).1 = Except.ok () ∧
    HookAction.spawnHook ("/repo") ("post-rewrite") (["1"]) true ∈
      (run_hook sampleHookEnv).2 ∧
    HookAction.writeStdin ("abc") ∈ (run_hook sampleHookEnv).2 := by
  obtain ⟨-, h⟩ := C8_run_hook sampleHookEnv
  obtain ⟨h1, h2, h3⟩ := h rfl
  exact ⟨h1, h2 _ rfl, h3 _ rfl⟩

/-- C9: for every hook that exists, `run_hook` waits for the hook process's
exit status and then discards it: the wait is in the trace and the function
returns success whatever that status is — in particular a hook exiting
non-zero propagates no error to the caller. -/
theorem C9_hook_exit_ignored (env : HookEnv) (h : env.hook_exists = true) :
    (run_hook env).1 = Except.ok () ∧
    HookAction.waitHook env.hook_exit_status ∈ (run_hook env).2 := by
  rw [run_hook, h]
  refine ⟨rfl, ?_⟩
  simp

theorem C9_hook_exit_ignored_witness :
    (run_hook sampleHookEnv).1 = Except.ok () ∧
    HookAction.waitHook (ExitStatus.exited 2) ∈ (run_hook sampleHookEnv).2 :=
  C9_hook_exit_ignored sampleHookEnv rfl
